import Mathlib

/-!
Verification development for the cto-stats pipeline.

The Go sources are shallowly embedded: `time.Time` values become `Int`
(UTC instants; only their order matters to the embedded code), `*time.Time`
becomes `Option Int`, Go slices become `List`, and the imperative loops are
rendered as structurally equivalent recursions or folds.  Strings stay
`String`; the Go normalizations `strings.TrimSpace` / `strings.ToLower`
are modelled on the underlying character lists.

Sections:
* stage-mapping engine (`command/calculate/calculate.go`)
* time-series aggregation: stocks, weekly stocks, weekly throughput
* fetch client rate handling (`main.go` `httpClient.do`)
* lifecycle aggregation and the board/column resolver (`main.go`)
* the per-repository import loop (`main.go` / `command/import`)
-/

namespace CtoStats

/-! ### String normalization

Embeds Go `strings.TrimSpace` (drop unicode whitespace on both ends) and
`strings.ToLower`, working on the character list of a `String` so that the
results are kernel-computable.  `equalFoldTrim` embeds
`strings.EqualFold(strings.TrimSpace(a), strings.TrimSpace(b))`; for the
ASCII column names involved, case folding is character-wise `toLower`. -/

def trimSpace (cs : List Char) : List Char :=
  ((cs.dropWhile Char.isWhitespace).reverse.dropWhile Char.isWhitespace).reverse

/-- Embeds `strings.ToLower(strings.TrimSpace(s))`, the normalization the
calculate command applies to every column name before comparing. -/
def normCol (s : String) : List Char :=
  (trimSpace s.data).map Char.toLower

def equalFoldTrim (a b : String) : Bool :=
  normCol a == normCol b

/-! ### Row models read from the CSVs (calculate.go)

`issueRow`, `statusEventRow` and `projectEventRow` mirror the structs of the
same names; the `Org`/`Repo`/`Number` identification fields are irrelevant to
the computations under verification and are dropped.  `readStatus` and
`readProject` sort each issue's events by `At` ascending before `Run` uses
them, so the event lists appearing below are those time-sorted lists. -/

structure issueRow where
  title : String
  type : String
  isBug : Bool
  createdAt : Int
deriving DecidableEq

structure statusEventRow where
  type : String
  atTime : Int
deriving DecidableEq

structure projectEventRow where
  projectID : String
  projectName : String
  toColumn : String
  atTime : Int
  eventType : String
deriving DecidableEq

/-- Output row of the calculate step, mirroring `calculatedIssue` in
calculate.go (Go `*time.Time` fields become `Option Int`). -/
structure calculatedIssue where
  id : String
  name : String
  projectID : String
  projectName : String
  creationDatetime : Int
  leadTimeStartDatetime : Option Int
  cycleTimeStartDatetime : Option Int
  putInReadyStartDatetime : Option Int
  devStartDatetime : Option Int
  reviewStartDatetime : Option Int
  qaStartDatetime : Option Int
  waitingToPodStartDatetime : Option Int
  endDatetime : Option Int
  bug : Bool
  type : String
deriving DecidableEq

/-! ### Independent per-field rules (calculate.go lines 450-521) -/

/-- Embeds `firstMoveTo`: the first (list-order) event of type `moved` whose
normalized target column equals the normalized argument. -/
def firstMoveTo (events : List projectEventRow) (column : String) : Option Int :=
  if events.length = 0 then none
  else
    match events.find? (fun e => e.eventType == "moved" && (normCol e.toColumn == normCol column)) with
    | some ev => some ev.atTime
    | none => none

/-- The match predicate of `firstMoveToAny`: a `moved` event whose normalized
target column is in the normalized column set. -/
def moveMatches (columns : List String) (e : projectEventRow) : Bool :=
  e.eventType == "moved" && (columns.map normCol).contains (normCol e.toColumn)

/-- Embeds `firstMoveToAny`: the first (list-order) `moved` event whose
normalized target column is in the normalized column set. -/
def firstMoveToAny (events : List projectEventRow) (columns : List String) : Option Int :=
  if events.length = 0 then none
  else
    match events.find? (moveMatches columns) with
    | some ev => some ev.atTime
    | none => none

/-- Embeds `earliest`: fold over the candidate list keeping the earliest
non-nil timestamp (nil candidates are skipped). -/
def earliest (ts : List (Option Int)) : Option Int :=
  ts.foldl (fun res t =>
    match t with
    | none => res
    | some tv =>
      match res with
      | none => some tv
      | some m => if tv < m then some tv else res) none

/-- Embeds `lo.Find(st, func(s) { return s.Type == "closed" })` as used in
`Run` and in `computeEnd`: the first (list-order) closed status event. -/
def firstClosedAt (status : List statusEventRow) : Option Int :=
  match status.find? (fun s => s.type == "closed") with
  | some ev => some ev.atTime
  | none => none

/-- Embeds the `archived` candidate of `computeEnd`: the first (list-order)
`moved` event into the `Archive` column (case-insensitive, trimmed). -/
def firstArchivedAt (proj : List projectEventRow) : Option Int :=
  match proj.find? (fun p => p.eventType == "moved" && equalFoldTrim p.toColumn "Archive") with
  | some ev => some ev.atTime
  | none => none

/-- Embeds `computeEnd` (legacy fallback): earliest of the first `closed`
status event and the first move into the `Archive` column. -/
def computeEnd (status : List statusEventRow) (proj : List projectEventRow) : Option Int :=
  let closed := firstClosedAt status
  let archived := firstArchivedAt proj
  match closed, archived with
  | none, none => none
  | none, some a => some a
  | some c, none => some c
  | some c, some a => if c < a then some c else some a

/-! ### Configured-project branch of `Run` (calculate.go lines 181-214) -/

/-- Embeds the local closure `choose`: configured columns are consulted only
when the configured list is non-empty. -/
def choose (projEvents : List projectEventRow) (cols : List String) : Option Int :=
  if 0 < cols.length then firstMoveToAny projEvents cols else none

/-- Embeds the end-datetime computation of the configured branch of `Run`
(lines 196-206): the candidate list receives the configured in-prod move (if
any) and the first closed status event (if any), and `earliest` picks the
earliest candidate. -/
def endConfigured (inProdCols : List String) (projEvents : List projectEventRow)
    (st : List statusEventRow) : Option Int :=
  let c1 : List (Option Int) :=
    match choose projEvents inProdCols with
    | some e => [some e]
    | none => []
  let c2 : List (Option Int) :=
    match firstClosedAt st with
    | some t => [some t]
    | none => []
  earliest (c1 ++ c2)

/-- Modelled from the spec wording for comparison with the code: the
completion timestamp is the earliest of the two candidates; if only one is
present, that one; if neither, the issue is open (`none`). -/
def endSpec : Option Int → Option Int → Option Int
  | some a, some b => some (min a b)
  | some a, none => some a
  | none, some b => some b
  | none, none => none

/-- Mirrors `config.Project` (connectors/config/config.go): per-project column
lists for each stage. -/
structure ProjectCfg where
  id : String
  name : String
  exclude : Bool
  types : List String
  leadTimeColumns : List String
  cycleTimeColumns : List String
  devStartColumns : List String
  reviewStartColumns : List String
  qaStartColumns : List String
  putInReadyColumns : List String
  waitingToProdStartCols : List String
  inProdStartColumns : List String
deriving DecidableEq

/-- Embeds the stage-timestamp computation of the configured branch of `Run`
(calculate.go lines 181-214), including the backfill applied when an end
datetime is present. -/
def configuredRow (pc : ProjectCfg) (is : issueRow) (projEvents : List projectEventRow)
    (st : List statusEventRow) : calculatedIssue :=
  let lead := choose projEvents pc.leadTimeColumns
  let cycle0 := choose projEvents pc.cycleTimeColumns
  let ready := choose projEvents pc.putInReadyColumns
  let dev0 := choose projEvents pc.devStartColumns
  let review := choose projEvents pc.reviewStartColumns
  let qa := choose projEvents pc.qaStartColumns
  let waiting := choose projEvents pc.waitingToProdStartCols
  let endD := endConfigured pc.inProdStartColumns projEvents st
  let cycle := if endD.isSome ∧ cycle0 = none then lead else cycle0
  let dev := if endD.isSome ∧ dev0 = none then lead else dev0
  { id := ""
    name := is.title
    projectID := pc.id
    projectName := pc.name
    creationDatetime := is.createdAt
    leadTimeStartDatetime := lead
    cycleTimeStartDatetime := cycle
    putInReadyStartDatetime := ready
    devStartDatetime := dev
    reviewStartDatetime := review
    qaStartDatetime := qa
    waitingToPodStartDatetime := waiting
    endDatetime := endD
    bug := is.isBug
    type := is.type }

/-- Embeds the legacy fallback branch of `Run` (calculate.go lines 215-232),
used when the issue's project has no config entry. -/
def legacyRow (is : issueRow) (projEvents : List projectEventRow)
    (st : List statusEventRow) : calculatedIssue :=
  let lead := firstMoveToAny projEvents ["Backlog", "Ready"]
  let cycle0 := firstMoveToAny projEvents ["In Progress", "In progress"]
  let cycle := if cycle0 = none then firstMoveToAny projEvents ["Backlog", "Ready"] else cycle0
  let dev0 := firstMoveToAny projEvents ["In Progress", "In progress"]
  let dev := if dev0 = none then firstMoveToAny projEvents ["Backlog", "Ready"] else dev0
  { id := ""
    name := is.title
    projectID := ""
    projectName := ""
    creationDatetime := is.createdAt
    leadTimeStartDatetime := lead
    cycleTimeStartDatetime := cycle
    putInReadyStartDatetime := firstMoveToAny projEvents ["Ready", "In Ready", "Ready for Dev"]
    devStartDatetime := dev
    reviewStartDatetime := firstMoveToAny projEvents ["In review", "In Review"]
    qaStartDatetime := none
    waitingToPodStartDatetime := firstMoveTo projEvents "Done"
    endDatetime := computeEnd st projEvents
    bug := is.isBug
    type := is.type }

/-! ### Current stocks (calculate.go `writeStocks`, lines 825-938)

The Go helper `stageFlags` returns seven positional booleans named in its
signature `(openedBug, inBacklog, inReady, inDev, inReview, inQA, waiting)`;
the structure below keeps those names in the same order, and each branch
reproduces the positional literals returned by the source. -/

structure StockFlags where
  openedBug : Bool
  inBacklog : Bool
  inReady : Bool
  inDev : Bool
  inReview : Bool
  inQA : Bool
  waiting : Bool
deriving DecidableEq

/-- Embeds `stageFlags` from `writeStocks`: bucket booleans for a not-closed
issue, "furthest known stage wins".  Each branch is the positional tuple
returned by the Go code at that branch. -/
def stageFlags (r : calculatedIssue) : StockFlags :=
  if r.endDatetime.isSome then ⟨false, false, false, false, false, false, false⟩
  else
    let openedBug := r.bug
    if r.waitingToPodStartDatetime.isSome then ⟨openedBug, false, false, false, false, false, true⟩
    else if r.qaStartDatetime.isSome then ⟨openedBug, false, false, false, true, false, false⟩
    else if r.reviewStartDatetime.isSome then ⟨openedBug, false, false, true, false, false, false⟩
    else if r.devStartDatetime.isSome then ⟨openedBug, false, false, true, false, false, false⟩
    else if r.putInReadyStartDatetime.isSome then ⟨openedBug, false, true, false, false, false, false⟩
    else ⟨openedBug, true, false, false, false, false, false⟩

/-! ### Weekly stocks (calculate.go `writeWeeklyStocks`, lines 940-1135)

`Run` (line 264) passes `openIssues` — the issues with `EndDatetime == nil` —
into `writeWeeklyStocks`.  For each enumerated week the helper `stageAt`
classifies each input row against that week's cutoff instant; the embedding
below keeps the cutoff as an explicit `Int` parameter (the enumerated cutoff
is the week's Sunday end-of-day instant). -/

/-- Embeds the local closure `le` of `stageAt`: a stage timestamp counts when
present and not after the cutoff. -/
def leAt (cutoff : Int) : Option Int → Bool
  | some t => decide (t ≤ cutoff)
  | none => false

/-- Embeds `stageAt` from `writeWeeklyStocks` (lines 1002-1038): stage flags
of an issue as of a cutoff instant.  Branches keep the source's positional
boolean tuples and its (redundant) negated guards. -/
def stageAt (r : calculatedIssue) (cutoff : Int) : StockFlags :=
  if cutoff < r.creationDatetime then ⟨false, false, false, false, false, false, false⟩
  else if r.endDatetime.isSome && leAt cutoff r.endDatetime then ⟨false, false, false, false, false, false, false⟩
  else
    let openedBug := r.bug
    if leAt cutoff r.waitingToPodStartDatetime then ⟨openedBug, false, false, false, false, false, true⟩
    else if leAt cutoff r.qaStartDatetime && !leAt cutoff r.waitingToPodStartDatetime then
      ⟨openedBug, false, false, false, true, false, false⟩
    else if leAt cutoff r.reviewStartDatetime && !leAt cutoff r.qaStartDatetime
        && !leAt cutoff r.waitingToPodStartDatetime then
      ⟨openedBug, false, false, true, false, false, false⟩
    else if leAt cutoff r.devStartDatetime && !leAt cutoff r.reviewStartDatetime
        && !leAt cutoff r.qaStartDatetime && !leAt cutoff r.waitingToPodStartDatetime then
      ⟨openedBug, false, false, true, false, false, false⟩
    else if leAt cutoff r.putInReadyStartDatetime && !leAt cutoff r.devStartDatetime
        && !leAt cutoff r.reviewStartDatetime && !leAt cutoff r.qaStartDatetime
        && !leAt cutoff r.waitingToPodStartDatetime then
      ⟨openedBug, false, true, false, false, false, false⟩
    else ⟨openedBug, true, false, false, false, false, false⟩

structure stocksAgg where
  openedBugs : Nat
  inBacklogs : Nat
  inReady : Nat
  inDev : Nat
  inReview : Nat
  inQA : Nat
  waitingToProd : Nat
deriving DecidableEq

def addFlags (agg : stocksAgg) (f : StockFlags) : stocksAgg :=
  { openedBugs := agg.openedBugs + (if f.openedBug then 1 else 0)
    inBacklogs := agg.inBacklogs + (if f.inBacklog then 1 else 0)
    inReady := agg.inReady + (if f.inReady then 1 else 0)
    inDev := agg.inDev + (if f.inDev then 1 else 0)
    inReview := agg.inReview + (if f.inReview then 1 else 0)
    inQA := agg.inQA + (if f.inQA then 1 else 0)
    waitingToProd := agg.waitingToProd + (if f.waiting then 1 else 0) }

/-- Embeds the per-week aggregation loop of `writeWeeklyStocks` (lines
1046-1077), totalled over all projects: rows whose flags are all false are
skipped, the others increment the matching counters. -/
def stocksAggAt (rows : List calculatedIssue) (cutoff : Int) : stocksAgg :=
  rows.foldl (fun agg r =>
    let f := stageAt r cutoff
    if !(f.openedBug || f.inBacklog || f.inReady || f.inDev || f.inReview || f.inQA || f.waiting) then agg
    else addFlags agg f) ⟨0, 0, 0, 0, 0, 0, 0⟩

/-- Embeds `openIssues` of `Run` (line 242): the rows with no end datetime.
`Run` (line 264) passes exactly this list to `writeWeeklyStocks`. -/
def openIssues (rows : List calculatedIssue) : List calculatedIssue :=
  rows.filter (fun ci => ci.endDatetime.isNone)

/-- The weekly-stocks pipeline as wired in `Run`: the per-cutoff aggregation
applied to the open issues only. -/
def weeklyStocksAt (allIssues : List calculatedIssue) (cutoff : Int) : stocksAgg :=
  stocksAggAt (openIssues allIssues) cutoff

/-! ### Weekly throughput (calculate.go `writeWeeklyThroughput`, lines 670-823)

Days are modelled as `Int` days since 1970-01-01 UTC (a Thursday; the Go
`time.Weekday` convention Sunday = 0 makes `weekday(d) = (d+4) mod 7`).
Completion instants enter this section at day granularity: `alignToMonday`
first truncates the instant to midnight, so only the day matters.  The Go
code keys weeks by `ISOWeek()` of the aligned Monday; every Monday belongs to
exactly one ISO week and consecutive Mondays to consecutive ISO weeks, so the
embedding represents each week key by its Monday.

`math.Sqrt` operates on IEEE doubles, which the embedding does not model; all
definitions take the square-root function `sq` as a parameter, and every
theorem below holds for an arbitrary `sq`, hence for the real one. -/

/-- Embeds the `alignToMonday` closure: truncate to midnight and step back
`(weekday+6) mod 7` days to the Monday starting the ISO week. -/
def alignToMonday (d : Int) : Int :=
  d - (((d + 4) % 7 + 6) % 7)

/-- Embeds the week-axis loop `for cur := start; !cur.After(end); cur = cur+7d`
producing the continuous Monday axis. -/
def mondaysBetween (a b : Int) : List Int :=
  if a ≤ b then (List.range (((b - a) / 7).toNat + 1)).map (fun i => a + 7 * Int.ofNat i) else []

/-- One step of the running `minTime` accumulation
(`minTime == nil || end.Before(minTime)`). -/
def minStep (acc : Option Int) (t : Int) : Option Int :=
  match acc with
  | none => some t
  | some m => some (if t < m then t else m)

/-- One step of the running `maxTime` accumulation
(`maxTime == nil || end.After(maxTime)`). -/
def maxStep (acc : Option Int) (t : Int) : Option Int :=
  match acc with
  | none => some t
  | some m => some (if m < t then t else m)

/-- The running minimum over the completion instants. -/
def minOf (xs : List Int) : Option Int :=
  xs.foldl minStep none

/-- The running maximum over the completion instants. -/
def maxOf (xs : List Int) : Option Int :=
  xs.foldl maxStep none

/-- The continuous week axis (`keys` in the source) of the completion days. -/
def throughputKeys (ends : List Int) : List Int :=
  match minOf ends, maxOf ends with
  | some mn, some mx => mondaysBetween (alignToMonday mn) (alignToMonday mx)
  | _, _ => []

/-- Embeds the `counts[wk]++` aggregation keyed by the completion's ISO week,
with weeks represented by their Monday. -/
def weekCount (ends : List Int) (m : Int) : Nat :=
  (ends.filter (fun d => alignToMonday d = m)).length

/-- Embeds the `clamp0` closure of `writeWeeklyThroughput`. -/
def clamp0 (v : ℚ) : ℚ := if v < 0 then 0 else v

/-- The `(ucl, lcl)` pair computed from a mean:
`ucl = mean + 3*sqrt(mean)`, `lcl = clamp0(mean - 3*sqrt(mean))`. -/
def mkLimits (sq : ℚ → ℚ) (mean : ℚ) : ℚ × ℚ :=
  (mean + 3 * sq mean, clamp0 (mean - 3 * sq mean))

/-- Embeds the 6-week-cadence loop (lines 753-781): each full block of 6
weeks receives the limits computed from the mean of its own 6 counts (the
computation happening at the block's 6th week), and the trailing partial
block (`lastAssigned < len-1`) reuses the limits of the last full block.
The `prev` argument carries the last assigned limits into the tail; the
caller only invokes this with at least 6 counts, so the initial `prev` is
never consulted. -/
def blocksGo (sq : ℚ → ℚ) (prev : ℚ × ℚ) : List ℚ → List (ℚ × ℚ)
  | c0 :: c1 :: c2 :: c3 :: c4 :: c5 :: rest =>
    let lim := mkLimits sq ([c0, c1, c2, c3, c4, c5].sum / 6)
    List.replicate 6 lim ++ blocksGo sq lim rest
  | cs => List.replicate cs.length prev

/-- Per-week `(ucl, lcl)` assignment of `writeWeeklyThroughput`: fewer than 6
weeks uses one mean over all weeks for every row (lines 739-752), otherwise
the 6-week-cadence loop runs. -/
def limitsList (sq : ℚ → ℚ) (counts : List ℚ) : List (ℚ × ℚ) :=
  if counts.length < 6 then
    List.replicate counts.length (mkLimits sq (counts.sum / counts.length))
  else
    blocksGo sq (0, 0) counts

/-- The trailing 6-count mean of block `b` (counts `6b .. 6b+5`). -/
def chunkMean (cs : List ℚ) (b : Nat) : ℚ :=
  ((cs.drop (6 * b)).take 6).sum / 6

structure throughputRow where
  monday : Int
  throughput : Nat
  center : ℚ
  ucl : ℚ
  lcl : ℚ
deriving DecidableEq

/-- The per-week counts along the week axis. -/
def throughputCounts (ends : List Int) : List Nat :=
  (throughputKeys ends).map (weekCount ends)

/-- The per-week counts as rationals, the input of the limits computation. -/
def weekCountsQ (ends : List Int) : List ℚ :=
  (throughputCounts ends).map (fun c => (Nat.cast c : ℚ))

/-- One output row from a (week, count, limits) triple; `center` is
overwritten with the weekly count (lines 783-786). -/
def mkThroughputRow (p : Int × Nat × ℚ × ℚ) : throughputRow :=
  { monday := p.1, throughput := p.2.1, center := (p.2.1 : ℚ), ucl := p.2.2.1, lcl := p.2.2.2 }

/-- The output rows of `writeWeeklyThroughput`: the week axis zipped with
counts and limits, and the final (most recent, still accumulating) week
removed before writing (lines 787-793). -/
def throughputRows (sq : ℚ → ℚ) (ends : List Int) : List throughputRow :=
  (((throughputKeys ends).zip
    ((throughputCounts ends).zip (limitsList sq (weekCountsQ ends)))).map mkThroughputRow).dropLast

/-- The number of calendar weeks spanned by the completion days (the length
of the continuous week axis before the final-week removal). -/
def weeksSpannedBy (ends : List Int) : Nat :=
  (throughputKeys ends).length

/-- A concrete stand-in square root used to instantiate the `sq` parameter in
closed statements; the theorems hold for every `sq`. -/
def sqrtStub : ℚ → ℚ := fun _ => 0

/-! ### Fetch client quota handling (main.go `httpClient.do`, lines 81-111)

A response carries its status code, the `X-RateLimit-Remaining` header value
(string-compared to `"0"` by the source) and the parsed `X-RateLimit-Reset`
header: `some sec` models a header present for which `strconv.ParseInt`
succeeds, `none` a missing or unparseable header.  The retry loop is driven
by the list of responses the server would successively return; `now` is the
instant of the call (`time.Until(reset) = reset - now`). -/

structure httpResponse where
  statusCode : Nat
  rateRemaining : String
  rateReset : Option Int
deriving DecidableEq

inductive doError where
  | rateLimited : doError
  | upstream : Nat → doError
  | noResponse : doError
deriving DecidableEq

inductive doResult where
  | ok : httpResponse → doResult
  | fail : doError → doResult
deriving DecidableEq

/-- Embeds `rateSafetyMargin = 2 * time.Second`, in seconds. -/
def rateSafetyMargin : Int := 2

/-- Embeds the retry loop of `httpClient.do`: returns the list of sleeps
performed (quota waits) and the outcome.  A 403 with zero remaining quota and
a usable reset sleeps `reset - now + margin` when positive and retries the
request (consuming the next response); without a usable reset it fails with
the rate-limited error; a 2xx succeeds; anything else fails with the status
attached. -/
def doLoop (now : Int) : List httpResponse → List Int × doResult
  | [] => ([], .fail .noResponse)
  | r :: rest =>
    if r.statusCode = 403 ∧ r.rateRemaining = "0" then
      match r.rateReset with
      | some sec =>
        let wait := sec - now + rateSafetyMargin
        let sleeps := if 0 < wait then [wait] else []
        let res := doLoop now rest
        (sleeps ++ res.1, res.2)
      | none => ([], .fail .rateLimited)
    else if 200 ≤ r.statusCode ∧ r.statusCode < 300 then ([], .ok r)
    else ([], .fail (.upstream r.statusCode))

/-! ### Board/column resolver and the status-changed case (main.go)

`resolver.getColumn` / `getProject` are read-through caches over the
secondary lookup endpoints.  The backing fetch is modelled as a function
`Int → Option _`; `none` is the HTTP-error path of the source, in which the
failure is cached as a not-ok entry (`colCache[id] = {ok: false}`).  Each
call also reports how many backing fetches it performed, so cache hits are
observable. -/

structure ghProjectColumn where
  name : String
  projectID : Int
deriving DecidableEq

structure ghProject where
  name : String
deriving DecidableEq

structure resolverState where
  colCache : List (Int × Option ghProjectColumn)
  prjCache : List (Int × Option ghProject)
deriving DecidableEq

def lookupCache {α : Type} (cache : List (Int × α)) (cid : Int) : Option α :=
  (cache.find? (fun p => p.1 == cid)).map (fun p => p.2)

/-- Embeds `resolver.getColumn` (main.go lines 225-249): serve from the cache
when present (0 fetches); otherwise fetch once, caching the result — also
caching the failure as a not-ok entry. -/
def getColumn (colServer : Int → Option ghProjectColumn) (st : resolverState) (cid : Int) :
    Option ghProjectColumn × resolverState × Nat :=
  match lookupCache st.colCache cid with
  | some e => (e, st, 0)
  | none =>
    match colServer cid with
    | none => (none, { st with colCache := st.colCache ++ [(cid, none)] }, 1)
    | some col => (some col, { st with colCache := st.colCache ++ [(cid, some col)] }, 1)

/-- Embeds `resolver.getProject` (main.go lines 251-274), same read-through
discipline as `getColumn`. -/
def getProject (prjServer : Int → Option ghProject) (st : resolverState) (pid : Int) :
    Option ghProject × resolverState × Nat :=
  match lookupCache st.prjCache pid with
  | some e => (e, st, 0)
  | none =>
    match prjServer pid with
    | none => (none, { st with prjCache := st.prjCache ++ [(pid, none)] }, 1)
    | some pr => (some pr, { st with prjCache := st.prjCache ++ [(pid, some pr)] }, 1)

/-- Timeline event, the subset of `gh.TimelineEvent` consumed by the
aggregation loop.  `projectCardColumnID = none` models
`ProjectCard == nil || ProjectCard.ColumnID == 0`. -/
structure tlEvent where
  event : String
  createdAtT : Int
  actor : Option String
  projectColumnName : String
  previousProjectColumnName : String
  projectCardColumnID : Option Int
deriving DecidableEq

structure projectMoveEvent where
  projectID : Int
  projectName : String
  fromColumn : String
  toColumn : String
  atTime : Int
  byUser : String
  type : String
deriving DecidableEq

def valueOrEmpty : Option String → String
  | some s => s
  | none => ""

/-- Embeds the `project_v2_item_status_changed` case of the aggregation loop
(main.go lines 416-442): resolve the column (read-through cache), derive the
project id and names from it, resolve the project name, and record a `moved`
event only when a non-zero project id was derived.  Returns the new resolver
state, the recorded event if any, and the number of backing fetches. -/
def statusChangedStep (colServer : Int → Option ghProjectColumn)
    (prjServer : Int → Option ghProject) (st : resolverState) (ev : tlEvent) :
    resolverState × Option projectMoveEvent × Nat :=
  match ev.projectCardColumnID with
  | none => (st, none, 0)
  | some cid =>
    let res1 := getColumn colServer st cid
    match res1.1 with
    | none => (res1.2.1, none, res1.2.2)
    | some col =>
      let projID := col.projectID
      let colNameTo := if ev.projectColumnName = "" then col.name else ev.projectColumnName
      let res2 := getProject prjServer res1.2.1 projID
      let projName := match res2.1 with
        | some pr => pr.name
        | none => ""
      let st2 := res2.2.1
      let fetches := res1.2.2 + res2.2.2
      if projID = 0 then (st2, none, fetches)
      else
        (st2,
         some { projectID := projID, projectName := projName,
                fromColumn := ev.previousProjectColumnName, toColumn := colNameTo,
                atTime := ev.createdAtT, byUser := valueOrEmpty ev.actor, type := "moved" },
         fetches)

/-! ### Lifecycle status aggregation (main.go lines 363-387, and the
identical seeding in the import command) -/

structure tlIssue where
  number : Nat
  title : String
  createdAt : Int
  user : Option String
  isPR : Bool
deriving DecidableEq

structure statusEventOut where
  type : String
  atTime : Int
  byUser : String
deriving DecidableEq

/-- One iteration of the timeline loop as far as the status history is
concerned: `closed`/`reopened` events append an entry, every other event
kind leaves the status history unchanged. -/
def statusStep (statusHist : List statusEventOut) (ev : tlEvent) : List statusEventOut :=
  if ev.event = "closed" then
    statusHist ++ [{ type := "closed", atTime := ev.createdAtT, byUser := valueOrEmpty ev.actor }]
  else if ev.event = "reopened" then
    statusHist ++ [{ type := "reopened", atTime := ev.createdAtT, byUser := valueOrEmpty ev.actor }]
  else statusHist

/-- Embeds the status-history aggregation: `statusHist` is seeded with the
synthetic `opened` event at the issue's creation time, then the timeline
events append `closed`/`reopened` entries in source order. -/
def aggregateStatusHistory (is : tlIssue) (evts : List tlEvent) : List statusEventOut :=
  evts.foldl statusStep
    [{ type := "opened", atTime := is.createdAt, byUser := valueOrEmpty is.user }]

/-! ### Per-repository import loop (main.go lines 319-477 / command/import) -/

structure ghRepo where
  name : String
  owner : String
deriving DecidableEq

structure issueReportLite where
  org : String
  repo : String
  number : Nat
  title : String
deriving DecidableEq

/-- The per-issue report construction of the import loop (identification
fields; the histories are the aggregation artifacts studied separately). -/
def buildReport (org : String) (r : ghRepo) (is : tlIssue) : issueReportLite :=
  { org := org, repo := r.name, number := is.number, title := is.title }

/-- The stderr message emitted when a repository's issue listing fails
(`error listing issues for owner/name: err`). -/
def repoErrMsg (r : ghRepo) (e : String) : String :=
  "error listing issues for " ++ r.owner ++ "/" ++ r.name ++ ": " ++ e

/-- Embeds the repository loop of the import run: each repository's issues
are fetched; on failure the error is reported and the loop continues with
the next repository; on success the non-PR issues are turned into reports,
in order.  Returns the accumulated reports and the reported errors. -/
def ingestRepos (fetchIssues : ghRepo → Except String (List tlIssue)) (org : String) :
    List ghRepo → List issueReportLite × List String
  | [] => ([], [])
  | r :: rest =>
    match fetchIssues r with
    | .error e =>
      let res := ingestRepos fetchIssues org rest
      (res.1, repoErrMsg r e :: res.2)
    | .ok issues =>
      let res := ingestRepos fetchIssues org rest
      ((issues.filter (fun is => !is.isPR)).map (buildReport org r) ++ res.1, res.2)

/-! ### Concrete fixtures used by closed statements -/

/-- An open issue that has reached QA (`qa_start` set) and not waiting-to-prod. -/
def exC1 : calculatedIssue :=
  { id := "acme/app#1", name := "issue", projectID := "P1", projectName := "Board"
    creationDatetime := 0
    leadTimeStartDatetime := none, cycleTimeStartDatetime := none
    putInReadyStartDatetime := none, devStartDatetime := none
    reviewStartDatetime := none, qaStartDatetime := some 5
    waitingToPodStartDatetime := none, endDatetime := none
    bug := false, type := "task" }

/-- An issue created at instant 0 and completed at instant 100 (after the
cutoff instant 50 considered in the weekly-stocks statement). -/
def exC3 : calculatedIssue :=
  { id := "acme/app#2", name := "done later", projectID := "P1", projectName := "Board"
    creationDatetime := 0
    leadTimeStartDatetime := none, cycleTimeStartDatetime := none
    putInReadyStartDatetime := none, devStartDatetime := none
    reviewStartDatetime := none, qaStartDatetime := none
    waitingToPodStartDatetime := none, endDatetime := some 100
    bug := false, type := "task" }

/-- A project config with a lead column, a cycle column and no in-prod
columns. -/
def cfgC8 : ProjectCfg :=
  { id := "P1", name := "Board", exclude := false, types := []
    leadTimeColumns := ["Backlog"], cycleTimeColumns := ["Doing"]
    devStartColumns := [], reviewStartColumns := [], qaStartColumns := []
    putInReadyColumns := [], waitingToProdStartCols := [], inProdStartColumns := [] }

/-- The same config with `Done` configured as the in-prod column. -/
def cfgC8e : ProjectCfg := { cfgC8 with inProdStartColumns := ["Done"] }

def isC8 : issueRow := { title := "t", type := "task", isBug := false, createdAt := 0 }

/-- A single move into the configured lead column at instant 5. -/
def evC8 : List projectEventRow :=
  [{ projectID := "P1", projectName := "Board", toColumn := "Backlog", atTime := 5, eventType := "moved" }]

/-- The lead move followed by a move into `Done` at instant 9. -/
def evC8e : List projectEventRow :=
  evC8 ++ [{ projectID := "P1", projectName := "Board", toColumn := "Done", atTime := 9, eventType := "moved" }]

/-- A sorted project-event list with one move into `Done` at instant 10. -/
def evtsC2 : List projectEventRow :=
  [{ projectID := "P1", projectName := "Board", toColumn := "Done", atTime := 10, eventType := "moved" }]

/-- A sorted status list with one `closed` event at instant 5. -/
def stC2 : List statusEventRow := [{ type := "closed", atTime := 5 }]

/-- A status-changed timeline event referencing legacy column id 5. -/
def evC7 : tlEvent :=
  { event := "project_v2_item_status_changed", createdAtT := 10, actor := some "alice"
    projectColumnName := "In progress", previousProjectColumnName := "Todo"
    projectCardColumnID := some 5 }

def stEmpty : resolverState := { colCache := [], prjCache := [] }

/-- A backing column endpoint for which every lookup fails (HTTP-error path). -/
def colServerFail : Int → Option ghProjectColumn := fun _ => none

/-- A backing project endpoint for which every lookup fails. -/
def prjServerFail : Int → Option ghProject := fun _ => none

/-- A backing column endpoint resolving id 5 to a column of project 7. -/
def colServerOk : Int → Option ghProjectColumn :=
  fun cid => if cid = 5 then some { name := "In progress", projectID := 7 } else none

/-- A quota-exhausted response with a usable reset timestamp. -/
def respQuota : httpResponse := { statusCode := 403, rateRemaining := "0", rateReset := some 100 }

/-- A quota-exhausted response without a usable reset timestamp. -/
def respQuotaNoReset : httpResponse := { statusCode := 403, rateRemaining := "0", rateReset := none }

/-- A successful response. -/
def respOk : httpResponse := { statusCode := 200, rateRemaining := "4999", rateReset := none }

def repoA : ghRepo := { name := "alpha", owner := "acme" }

def repoB : ghRepo := { name := "beta", owner := "acme" }

def issueB : tlIssue := { number := 1, title := "x", createdAt := 0, user := some "bob", isPR := false }

/-- A fetch function failing on `alpha` and succeeding on every other repo. -/
def fetchC10 : ghRepo → Except String (List tlIssue) :=
  fun r => if r.name = "alpha" then .error "boom" else .ok [issueB]

/-- Completion days spanning seven consecutive ISO weeks. -/
def ends7 : List Int := [0, 7, 14, 21, 28, 35, 42]

/-! ## Theorems -/

/-- Claim C1: for an open issue the current-stocks classification marked the
bucket of the furthest reached stage; evaluated at an open issue whose only
stage timestamp is `qa_start`, the code sets the `in_review` flag — not the
`in_qa` flag the stage ordering names for it (`in_qa` is never set by
`stageFlags`; a review- or dev-reached issue both land in `in_dev`). -/
theorem stocks_qa_counted_in_review_eval :
    stageFlags exC1
      = { openedBug := false, inBacklog := false, inReady := false, inDev := false,
          inReview := true, inQA := false, waiting := false } := by decide

/-- Claim C3: the backward-reconstructed weekly stocks should include an
issue completed after the week's cutoff.  Evaluated at an issue created at
instant 0 and completed at instant 100 with cutoff 50: `stageAt` itself
would classify it (backlog), but `Run` feeds `writeWeeklyStocks` only the
currently-open issues, so the issue is dropped and the week's counts are all
zero. -/
theorem weekly_stocks_exclude_completed_eval :
    (stageAt exC3 50).inBacklog = true
    ∧ openIssues [exC3] = []
    ∧ weeklyStocksAt [exC3] 50 = ⟨0, 0, 0, 0, 0, 0, 0⟩ := by decide

/-- Claim C8 counterexample: a configured-project issue with a known
lead-start (`Backlog` at instant 5), no cycle-column move and no end
timestamp keeps `cycle_start = none`; the claimed unconditional backfill
(`cycle_start = lead_start`) does not happen because the code backfills only
when an end datetime is present. -/
theorem backfill_missing_for_open_issue_cex :
    (configuredRow cfgC8 isC8 evC8 []).endDatetime = none
    ∧ (configuredRow cfgC8 isC8 evC8 []).leadTimeStartDatetime = some 5
    ∧ (configuredRow cfgC8 isC8 evC8 []).cycleTimeStartDatetime = none := by decide

/-- Claim C8 (amended): in the configured branch the missing cycle-start is
backfilled from lead-start exactly when the end datetime is known; in the
legacy branch an issue with no `In Progress` move always falls back to the
`Backlog`/`Ready` timestamp, i.e. to its lead-start. -/
theorem backfill_applies_when_end_known (pc : ProjectCfg) (is : issueRow)
    (evts : List projectEventRow) (st : List statusEventRow)
    (hend : (endConfigured pc.inProdStartColumns evts st).isSome = true)
    (hcyc : choose evts pc.cycleTimeColumns = none) :
    (configuredRow pc is evts st).cycleTimeStartDatetime
      = (configuredRow pc is evts st).leadTimeStartDatetime
    ∧ ∀ (is2 : issueRow) (evts2 : List projectEventRow) (st2 : List statusEventRow),
        firstMoveToAny evts2 ["In Progress", "In progress"] = none →
        (legacyRow is2 evts2 st2).cycleTimeStartDatetime
          = (legacyRow is2 evts2 st2).leadTimeStartDatetime := by
  constructor
  · simp [configuredRow, hend, hcyc]
  · intro is2 evts2 st2 h
    simp [legacyRow, h]

/-- Claim C8 witness: the amended backfill at a concrete configured issue
whose end datetime is known (`Done` move at instant 9). -/
theorem backfill_applies_when_end_known_witness :
    (configuredRow cfgC8e isC8 evC8e []).cycleTimeStartDatetime
      = (configuredRow cfgC8e isC8 evC8e []).leadTimeStartDatetime :=
  (backfill_applies_when_end_known cfgC8e isC8 evC8e [] (by decide) (by decide)).1

/-- Claim C7 counterexample: a status-changed event whose legacy column id
cannot be resolved (backing lookup fails) is dropped entirely — no
board-move event is recorded, empty-named or otherwise. -/
theorem column_lookup_failure_drops_event_cex :
    (statusChangedStep colServerFail prjServerFail stEmpty evC7).2.1 = none := by decide

/-- Claim C7 (amended): when the column lookup itself fails the event is
dropped (not recorded with an empty name), the failure is cached as a
not-ok entry, and a repeated lookup of the same column id is served from
the cache with no second backing fetch; when the column resolves but the
project-name lookup fails, the event is recorded with an empty project
name. -/
theorem column_lookup_failure_cached (colServer : Int → Option ghProjectColumn)
    (prjServer : Int → Option ghProject) (st : resolverState) (ev : tlEvent) (cid : Int)
    (hcard : ev.projectCardColumnID = some cid)
    (hmiss : lookupCache st.colCache cid = none) :
    (colServer cid = none →
      (statusChangedStep colServer prjServer st ev).2.1 = none
      ∧ lookupCache (statusChangedStep colServer prjServer st ev).1.colCache cid = some none
      ∧ getColumn colServer (statusChangedStep colServer prjServer st ev).1 cid
          = (none, (statusChangedStep colServer prjServer st ev).1, 0))
    ∧ (∀ col, colServer cid = some col → col.projectID ≠ 0 →
        lookupCache st.prjCache col.projectID = none → prjServer col.projectID = none →
        ∃ mv, (statusChangedStep colServer prjServer st ev).2.1 = some mv
          ∧ mv.projectName = "") := by
  have hfind : st.colCache.find? (fun p => p.1 == cid) = none := by
    simpa [lookupCache, Option.map_eq_none'] using hmiss
  constructor
  · intro hfail
    simp [statusChangedStep, getColumn, hcard, hmiss, hfail, lookupCache, hfind, List.find?]
  · intro col hcol hpid hpmiss hpfail
    have hpfind : st.prjCache.find? (fun p => p.1 == col.projectID) = none := by
      simpa [lookupCache, Option.map_eq_none'] using hpmiss
    refine ⟨{ projectID := col.projectID, projectName := ""
              fromColumn := ev.previousProjectColumnName
              toColumn := if ev.projectColumnName = "" then col.name else ev.projectColumnName
              atTime := ev.createdAtT, byUser := valueOrEmpty ev.actor, type := "moved" }, ?_, rfl⟩
    simp [statusChangedStep, getColumn, getProject, hcard, hmiss, hcol, hpid,
      lookupCache, hfind, hpfind, hpfail]

/-- Claim C7 witness: the amended behavior at a concrete failing lookup
(column id 5, empty caches). -/
theorem column_lookup_failure_cached_witness :
    (statusChangedStep colServerFail prjServerFail stEmpty evC7).2.1 = none
    ∧ lookupCache (statusChangedStep colServerFail prjServerFail stEmpty evC7).1.colCache 5
        = some none
    ∧ getColumn colServerFail (statusChangedStep colServerFail prjServerFail stEmpty evC7).1 5
      = (none, (statusChangedStep colServerFail prjServerFail stEmpty evC7).1, 0) :=
  (column_lookup_failure_cached colServerFail prjServerFail stEmpty evC7 5 rfl rfl).1 rfl

/-- Claim C6: a 403 response with zero remaining quota and a usable reset
timestamp makes the client sleep `reset - now + margin` (when positive) and
retry the same request — the overall outcome is that of the retried call and
no error surfaces for the quota wait; the same signal without a usable reset
fails with the rate-limited error. -/
theorem quota_wait_and_retry (now : Int) (r : httpResponse) (rest : List httpResponse)
    (h403 : r.statusCode = 403) (hrem : r.rateRemaining = "0") :
    (∀ sec, r.rateReset = some sec →
      doLoop now (r :: rest)
        = ((if 0 < sec - now + rateSafetyMargin then [sec - now + rateSafetyMargin] else [])
            ++ (doLoop now rest).1, (doLoop now rest).2))
    ∧ (r.rateReset = none → doLoop now (r :: rest) = ([], .fail .rateLimited)) := by
  constructor
  · intro sec hsec
    simp [doLoop, h403, hrem, hsec]
  · intro hnone
    simp [doLoop, h403, hrem, hnone]

/-- Claim C6 witness: a concrete quota-exhausted response (reset at 100,
call at instant 0) followed by a success sleeps 102 seconds and surfaces the
success; the reset-less variant fails rate-limited. -/
theorem quota_wait_and_retry_witness :
    doLoop 0 [respQuota, respOk] = ([102], .ok respOk)
    ∧ doLoop 0 [respQuotaNoReset] = ([], .fail .rateLimited) := by
  have h1 := quota_wait_and_retry 0 respQuota [respOk] rfl rfl
  have h2 := quota_wait_and_retry 0 respQuotaNoReset [] rfl rfl
  refine ⟨?_, h2.2 rfl⟩
  rw [h1.1 100 rfl]
  decide

/-- Head preservation for one step of the status-history fold. -/
theorem statusStep_head (acc : List statusEventOut) (ev : tlEvent) (h : acc ≠ []) :
    statusStep acc ev ≠ [] ∧ (statusStep acc ev).head? = acc.head? := by
  cases acc with
  | nil => exact absurd rfl h
  | cons a as =>
    unfold statusStep
    split
    · simp
    · split <;> simp

/-- Head preservation for the whole status-history fold. -/
theorem foldl_statusStep_head (evts : List tlEvent) :
    ∀ acc : List statusEventOut, acc ≠ [] →
      evts.foldl statusStep acc ≠ [] ∧ (evts.foldl statusStep acc).head? = acc.head? := by
  induction evts with
  | nil => exact fun acc h => ⟨h, rfl⟩
  | cons e es ih =>
    intro acc h
    have h1 := statusStep_head acc e h
    have h2 := ih (statusStep acc e) h1.1
    exact ⟨h2.1, h2.2.trans h1.2⟩

/-- Claim C9: the aggregated status history is never empty, starts with the
synthetic `opened` event, and that event carries the issue's creation time
(and its creator). -/
theorem status_history_starts_opened (is : tlIssue) (evts : List tlEvent) :
    aggregateStatusHistory is evts ≠ []
    ∧ (aggregateStatusHistory is evts).head?
        = some { type := "opened", atTime := is.createdAt, byUser := valueOrEmpty is.user } := by
  have h := foldl_statusStep_head evts
    [{ type := "opened", atTime := is.createdAt, byUser := valueOrEmpty is.user }] (by simp)
  exact ⟨h.1, h.2⟩

/-- Splitting the import loop over an append of repository lists. -/
theorem ingestRepos_append (f : ghRepo → Except String (List tlIssue)) (org : String) :
    ∀ xs ys : List ghRepo,
      ingestRepos f org (xs ++ ys)
        = ((ingestRepos f org xs).1 ++ (ingestRepos f org ys).1,
           (ingestRepos f org xs).2 ++ (ingestRepos f org ys).2) := by
  intro xs ys
  induction xs with
  | nil => simp [ingestRepos]
  | cons r rest ih =>
    cases hf : f r <;> simp [ingestRepos, hf, ih]

/-- Claim C10: a repository whose issue listing fails does not abort the
run — the reports produced are exactly those of the run without the failing
repository, and the failure message is reported to the error stream. -/
theorem repo_failure_isolated (f : ghRepo → Except String (List tlIssue)) (org : String)
    (xs ys : List ghRepo) (r : ghRepo) (e : String) (hf : f r = .error e) :
    (ingestRepos f org (xs ++ r :: ys)).1 = (ingestRepos f org (xs ++ ys)).1
    ∧ repoErrMsg r e ∈ (ingestRepos f org (xs ++ r :: ys)).2 := by
  have hsplit := ingestRepos_append f org xs (r :: ys)
  have hsplit2 := ingestRepos_append f org xs ys
  constructor
  · rw [hsplit, hsplit2]
    simp [ingestRepos, hf]
  · rw [hsplit]
    simp [ingestRepos, hf]

/-- Claim C10 witness: with `alpha` failing and `beta` succeeding, the run
keeps `beta`'s report and reports `alpha`'s failure. -/
theorem repo_failure_isolated_witness :
    (ingestRepos fetchC10 "acme" [repoA, repoB]).1
      = (ingestRepos fetchC10 "acme" [repoB]).1
    ∧ repoErrMsg repoA "boom" ∈ (ingestRepos fetchC10 "acme" [repoA, repoB]).2 := by
  have h := repo_failure_isolated fetchC10 "acme" [] [repoB] repoA "boom" rfl
  simpa using h

/-- The two-candidate `earliest` fold agrees with the spec-shaped earliest
combination. -/
theorem earliest_pair (a b : Option Int) :
    earliest ((match a with | some x => [some x] | none => [])
      ++ (match b with | some y => [some y] | none => [])) = endSpec a b := by
  cases a with
  | none =>
    cases b with
    | none => rfl
    | some y => rfl
  | some x =>
    cases b with
    | none => rfl
    | some y =>
      show (if y < x then some y else some x) = some (min x y)
      by_cases h : y < x
      · rw [if_pos h, min_eq_right h.le]
      · rw [if_neg h, min_eq_left (not_lt.1 h)]

/-- The configured-branch end datetime is the spec-shaped earliest of the
configured in-prod move and the first closed event. -/
theorem endConfigured_eq (cols : List String) (evts : List projectEventRow)
    (st : List statusEventRow) :
    endConfigured cols evts st = endSpec (choose evts cols) (firstClosedAt st) :=
  earliest_pair (choose evts cols) (firstClosedAt st)

/-- The legacy `computeEnd` is the spec-shaped earliest of the first closed
event and the first `Archive` move. -/
theorem computeEnd_eq (st : List statusEventRow) (proj : List projectEventRow) :
    computeEnd st proj = endSpec (firstClosedAt st) (firstArchivedAt proj) := by
  unfold computeEnd endSpec
  cases firstClosedAt st with
  | none => cases firstArchivedAt proj <;> rfl
  | some c =>
    cases firstArchivedAt proj with
    | none => rfl
    | some a =>
      show (if c < a then some c else some a) = some (min c a)
      by_cases h : c < a
      · rw [if_pos h, min_eq_left h.le]
      · rw [if_neg h, min_eq_right (not_lt.1 h)]

/-- On a list sorted by the key `f`, the first `find?` hit has the minimal
key among all hits. -/
theorem find?_min_of_sorted {α : Type} (f : α → Int) (p : α → Bool) :
    ∀ l : List α, l.Pairwise (fun a b => f a ≤ f b) → ∀ x, l.find? p = some x →
      ∀ y ∈ l, p y = true → f x ≤ f y := by
  intro l
  induction l with
  | nil => intro _ x hx; simp at hx
  | cons a as ih =>
    intro hp x hx y hy hpy
    rw [List.find?_cons] at hx
    rcases List.pairwise_cons.1 hp with ⟨ha, htail⟩
    cases hpa : p a with
    | true =>
      rw [hpa] at hx
      injection hx with hxa
      subst hxa
      rcases List.mem_cons.1 hy with rfl | hmem
      · exact le_refl _
      · exact ha y hmem
    | false =>
      rw [hpa] at hx
      rcases List.mem_cons.1 hy with rfl | hmem
      · rw [hpa] at hpy; exact absurd hpy (by simp)
      · exact ih htail x hx y hmem hpy

/-- Claim C2: with the per-issue event lists time-sorted (as the CSV readers
produce them), the computed end datetime — in the configured branch and in
the legacy `computeEnd` — is the earliest of the first in-prod/Archive move
and the first closed status event: equal to the present candidate when only
one exists, absent when neither exists, and never later than any matching
move nor any closed event. -/
theorem end_is_earliest_candidate (cols : List String) (evts : List projectEventRow)
    (st : List statusEventRow)
    (hev : evts.Pairwise (fun a b => a.atTime ≤ b.atTime))
    (hst : st.Pairwise (fun a b => a.atTime ≤ b.atTime)) :
    endConfigured cols evts st = endSpec (choose evts cols) (firstClosedAt st)
    ∧ computeEnd st evts = endSpec (firstClosedAt st) (firstArchivedAt evts)
    ∧ (∀ e ∈ evts, moveMatches cols e = true →
        ∃ t, endConfigured cols evts st = some t ∧ t ≤ e.atTime)
    ∧ (∀ s ∈ st, s.type = "closed" →
        ∃ t, endConfigured cols evts st = some t ∧ t ≤ s.atTime) := by
  refine ⟨endConfigured_eq cols evts st, computeEnd_eq st evts, ?_, ?_⟩
  · intro e he hm
    have hne : evts.length ≠ 0 := by
      simp only [ne_eq, List.length_eq_zero]
      rintro rfl
      exact absurd he (List.not_mem_nil e)
    have hcols : 0 < cols.length := by
      rcases Nat.eq_zero_or_pos cols.length with h | h
      · rw [List.length_eq_zero] at h
        subst h
        simp [moveMatches] at hm
      · exact h
    have hfind : (evts.find? (moveMatches cols)).isSome :=
      List.find?_isSome.2 ⟨e, he, hm⟩
    obtain ⟨x, hx⟩ := Option.isSome_iff_exists.1 hfind
    have hfm : firstMoveToAny evts cols = some x.atTime := by
      simp [firstMoveToAny, hne, hx]
    have hch : choose evts cols = some x.atTime := by
      simp [choose, hcols, hfm]
    have hle : x.atTime ≤ e.atTime :=
      find?_min_of_sorted (fun z => z.atTime) (moveMatches cols) evts hev x hx e he hm
    rw [endConfigured_eq cols evts st, hch]
    cases hfc : firstClosedAt st with
    | none => exact ⟨x.atTime, rfl, hle⟩
    | some b => exact ⟨min x.atTime b, rfl, le_trans (min_le_left _ _) hle⟩
  · intro s hs hcl
    have hpy : (s.type == "closed") = true := by simp [hcl]
    have hfind : (st.find? (fun z => z.type == "closed")).isSome :=
      List.find?_isSome.2 ⟨s, hs, hpy⟩
    obtain ⟨y, hy⟩ := Option.isSome_iff_exists.1 hfind
    have hfc : firstClosedAt st = some y.atTime := by
      simp [firstClosedAt, hy]
    have hle : y.atTime ≤ s.atTime :=
      find?_min_of_sorted (fun z => z.atTime) (fun z => z.type == "closed") st hst y hy s hs hpy
    rw [endConfigured_eq cols evts st, hfc]
    cases hfm : choose evts cols with
    | none => exact ⟨y.atTime, rfl, hle⟩
    | some a => exact ⟨min a y.atTime, rfl, le_trans (min_le_right _ _) hle⟩

/-- Claim C2 witness: with a `Done` move at instant 10 and a closed event at
instant 5, the computed end is no later than the closed event. -/
theorem end_is_earliest_candidate_witness :
    ∃ t, endConfigured ["Done"] evtsC2 stC2 = some t ∧ t ≤ 5 := by
  have h := end_is_earliest_candidate ["Done"] evtsC2 stC2 (by decide) (by decide)
  exact h.2.2.2 { type := "closed", atTime := 5 } (by decide) rfl

/-- The block-cadence loop assigns limits to every week. -/
theorem blocksGo_length (sq : ℚ → ℚ) :
    ∀ (cs : List ℚ) (prev : ℚ × ℚ), (blocksGo sq prev cs).length = cs.length
  | c0 :: c1 :: c2 :: c3 :: c4 :: c5 :: rest, prev => by
    simp [blocksGo, blocksGo_length sq rest]
  | [], _ => by simp [blocksGo]
  | [c0], _ => by simp [blocksGo]
  | [c0, c1], _ => by simp [blocksGo]
  | [c0, c1, c2], _ => by simp [blocksGo]
  | [c0, c1, c2, c3], _ => by simp [blocksGo]
  | [c0, c1, c2, c3, c4], _ => by simp [blocksGo]

/-- With fewer than six weeks left, the tail reuses the carried limits. -/
theorem blocksGo_short (sq : ℚ → ℚ) (prev : ℚ × ℚ) :
    ∀ cs : List ℚ, cs.length < 6 → blocksGo sq prev cs = List.replicate cs.length prev
  | [], _ => rfl
  | [c0], _ => rfl
  | [c0, c1], _ => rfl
  | [c0, c1, c2], _ => rfl
  | [c0, c1, c2, c3], _ => rfl
  | [c0, c1, c2, c3, c4], _ => rfl
  | c0 :: c1 :: c2 :: c3 :: c4 :: c5 :: rest, h => by simp at h; omega

/-- Block means shift by one when the first six counts are dropped. -/
theorem chunkMean_cons6 (c0 c1 c2 c3 c4 c5 : ℚ) (rest : List ℚ) (b : Nat) :
    chunkMean (c0 :: c1 :: c2 :: c3 :: c4 :: c5 :: rest) (b + 1) = chunkMean rest b := by
  unfold chunkMean
  have hd : (c0 :: c1 :: c2 :: c3 :: c4 :: c5 :: rest).drop 6 = rest := rfl
  have h1 : 6 * (b + 1) = 6 + 6 * b := by ring
  rw [h1, ← List.drop_drop, hd]

/-- The zeroth block mean is the mean of the first six counts. -/
theorem chunkMean_zero6 (c0 c1 c2 c3 c4 c5 : ℚ) (rest : List ℚ) :
    chunkMean (c0 :: c1 :: c2 :: c3 :: c4 :: c5 :: rest) 0 = [c0, c1, c2, c3, c4, c5].sum / 6 := rfl

/-- Closed form of the block-cadence loop: with at least six weeks, week `i`
carries the limits computed from the trailing 6-week mean of its own full
block, the trailing partial block reusing those of the last full block. -/
theorem blocksGo_getElem (sq : ℚ → ℚ) :
    ∀ (cs : List ℚ) (prev : ℚ × ℚ) (i : Nat), 6 ≤ cs.length → i < cs.length →
      (blocksGo sq prev cs)[i]?
        = some (mkLimits sq (chunkMean cs (min (i / 6) (cs.length / 6 - 1))))
  | c0 :: c1 :: c2 :: c3 :: c4 :: c5 :: rest, prev, i, h6, hi => by
    simp only [blocksGo]
    by_cases hlt : i < 6
    · rw [List.getElem?_append_left (by simpa using hlt), List.getElem?_replicate_of_lt hlt]
      have hmin : min (i / 6) ((c0 :: c1 :: c2 :: c3 :: c4 :: c5 :: rest).length / 6 - 1) = 0 := by
        have hz : i / 6 = 0 := Nat.div_eq_of_lt hlt
        simp [hz]
      rw [hmin, chunkMean_zero6]
    · push_neg at hlt
      rw [List.getElem?_append_right (by simpa using hlt)]
      simp only [List.length_replicate]
      by_cases hr : 6 ≤ rest.length
      · have hi6 : i - 6 < rest.length := by
          simp only [List.length_cons] at hi
          omega
        rw [blocksGo_getElem sq rest _ (i - 6) hr hi6]
        have hb : min (i / 6) ((c0 :: c1 :: c2 :: c3 :: c4 :: c5 :: rest).length / 6 - 1)
            = (min ((i - 6) / 6) (rest.length / 6 - 1)) + 1 := by
          simp only [List.length_cons]
          omega
        rw [hb, chunkMean_cons6]
      · push_neg at hr
        rw [blocksGo_short sq _ rest hr]
        have hi6 : i - 6 < rest.length := by
          simp only [List.length_cons] at hi
          omega
        rw [List.getElem?_replicate_of_lt hi6]
        have hmin : min (i / 6) ((c0 :: c1 :: c2 :: c3 :: c4 :: c5 :: rest).length / 6 - 1) = 0 := by
          simp only [List.length_cons]
          omega
        rw [hmin, chunkMean_zero6]
  | [], _, _, h6, _ => by simp at h6
  | [c0], _, _, h6, _ => by simp at h6
  | [c0, c1], _, _, h6, _ => by simp at h6
  | [c0, c1, c2], _, _, h6, _ => by simp at h6
  | [c0, c1, c2, c3], _, _, h6, _ => by simp at h6
  | [c0, c1, c2, c3, c4], _, _, h6, _ => by simp at h6



/-- Clamping at zero yields a non-negative value. -/
theorem clamp0_nonneg (v : ℚ) : 0 ≤ clamp0 v := by
  by_cases h : v < 0
  · simp [clamp0, h]
  · simp [clamp0, h]; exact not_lt.1 h

/-- The limits list covers every week of the axis. -/
theorem limitsList_length (sq : ℚ → ℚ) (counts : List ℚ) :
    (limitsList sq counts).length = counts.length := by
  unfold limitsList
  split
  · simp
  · exact blocksGo_length sq counts _

/-- With fewer than six weeks, every week carries the all-weeks-mean limits. -/
theorem limitsList_getElem_lt6 (sq : ℚ → ℚ) (counts : List ℚ) (i : Nat)
    (h6 : counts.length < 6) (hi : i < counts.length) :
    (limitsList sq counts)[i]? = some (mkLimits sq (counts.sum / counts.length)) := by
  unfold limitsList
  rw [if_pos h6, List.getElem?_replicate_of_lt hi]

/-- With at least six weeks, week `i` carries its block limits. -/
theorem limitsList_getElem_ge6 (sq : ℚ → ℚ) (counts : List ℚ) (i : Nat)
    (h6 : 6 ≤ counts.length) (hi : i < counts.length) :
    (limitsList sq counts)[i]?
      = some (mkLimits sq (chunkMean counts (min (i / 6) (counts.length / 6 - 1)))) := by
  unfold limitsList
  rw [if_neg (not_lt.2 h6)]
  exact blocksGo_getElem sq counts _ i h6 hi

/-- Every lower limit produced by the block loop is non-negative. -/
theorem blocksGo_lcl_nonneg (sq : ℚ → ℚ) :
    ∀ (cs : List ℚ) (prev : ℚ × ℚ), 0 ≤ prev.2 → ∀ l ∈ blocksGo sq prev cs, 0 ≤ l.2
  | c0 :: c1 :: c2 :: c3 :: c4 :: c5 :: rest, prev, hp, l, hl => by
    simp only [blocksGo, List.mem_append] at hl
    rcases hl with hl | hl
    · rw [(List.mem_replicate.1 hl).2]
      exact clamp0_nonneg _
    · exact blocksGo_lcl_nonneg sq rest _ (clamp0_nonneg _) l hl
  | [], _, hp, l, hl => by simp [blocksGo] at hl
  | [c0], _, hp, l, hl => by
    simp [blocksGo] at hl; rw [hl]; exact hp
  | [c0, c1], _, hp, l, hl => by
    simp [blocksGo] at hl; rw [hl]; exact hp
  | [c0, c1, c2], _, hp, l, hl => by
    simp [blocksGo] at hl; rw [hl]; exact hp
  | [c0, c1, c2, c3], _, hp, l, hl => by
    simp [blocksGo] at hl; rw [hl]; exact hp
  | [c0, c1, c2, c3, c4], _, hp, l, hl => by
    simp [blocksGo] at hl; rw [hl]; exact hp

/-- Every lower limit in the limits list is non-negative. -/
theorem limitsList_lcl_nonneg (sq : ℚ → ℚ) (counts : List ℚ) :
    ∀ l ∈ limitsList sq counts, 0 ≤ l.2 := by
  intro l hl
  unfold limitsList at hl
  split at hl
  · rw [(List.mem_replicate.1 hl).2]
    exact clamp0_nonneg _
  · exact blocksGo_lcl_nonneg sq counts (0, 0) (le_refl 0) l hl



/-- Decomposition of an output row into its week key, limits and count. -/
theorem throughputRows_elim (sq : ℚ → ℚ) (ends : List Int) (i : Nat) (ri : throughputRow)
    (h : (throughputRows sq ends)[i]? = some ri) :
    i + 1 < (throughputKeys ends).length
    ∧ (throughputKeys ends)[i]? = some ri.monday
    ∧ (limitsList sq (weekCountsQ ends))[i]? = some (ri.ucl, ri.lcl)
    ∧ ri.throughput = weekCount ends ri.monday := by
  unfold throughputRows at h
  rw [List.dropLast_eq_take, List.getElem?_take] at h
  split at h
  case isFalse => exact absurd h (by simp)
  case isTrue hcond =>
    rw [List.getElem?_map] at h
    obtain ⟨p, hp, hf⟩ := Option.map_eq_some'.1 h
    rcases List.getElem?_zip_eq_some.1 hp with ⟨hk, hcl⟩
    rcases List.getElem?_zip_eq_some.1 hcl with ⟨hc, hl⟩
    have hclen : (throughputCounts ends).length = (throughputKeys ends).length := by
      simp only [throughputCounts, List.length_map]
    have hllen : (limitsList sq (weekCountsQ ends)).length = (throughputKeys ends).length := by
      rw [limitsList_length]
      simp only [weekCountsQ, throughputCounts, List.length_map]
    have hzlen : (((throughputKeys ends).zip
        ((throughputCounts ends).zip (limitsList sq (weekCountsQ ends)))).map mkThroughputRow).length
          = (throughputKeys ends).length := by
      simp only [List.length_map, List.length_zip, hclen, hllen, Nat.min_self]
    rw [hzlen] at hcond
    have hm : ri.monday = p.1 := by rw [← hf]; rfl
    have ht : ri.throughput = p.2.1 := by rw [← hf]; rfl
    have hu : ri.ucl = p.2.2.1 := by rw [← hf]; rfl
    have hlcl : ri.lcl = p.2.2.2 := by rw [← hf]; rfl
    refine ⟨by omega, by rw [hm]; exact hk, ?_, ?_⟩
    · rw [hu, hlcl]
      simpa using hl
    · unfold throughputCounts at hc
      rw [List.getElem?_map, hk] at hc
      simp only [Option.map_some'] at hc
      rw [ht, hm]
      exact (Option.some.injEq _ _ ▸ hc).symm



/-- The output has one row per axis week minus the removed final week. -/
theorem throughputRows_length (sq : ℚ → ℚ) (ends : List Int) :
    (throughputRows sq ends).length = (throughputKeys ends).length - 1 := by
  unfold throughputRows
  simp only [List.length_dropLast, List.length_map, List.length_zip,
    weekCountsQ, throughputCounts, limitsList_length, Nat.min_self]

/-- A fold whose step preserves definedness stays defined. -/
theorem foldl_some_isSome {α β : Type} (step : Option β → α → Option β)
    (hstep : ∀ b a, (step (some b) a).isSome = true) :
    ∀ (xs : List α) (b : β), (xs.foldl step (some b)).isSome = true := by
  intro xs
  induction xs with
  | nil => intro b; rfl
  | cons x rest ih =>
    intro b
    rw [List.foldl_cons]
    obtain ⟨c, hc⟩ := Option.isSome_iff_exists.1 (hstep b x)
    rw [hc]
    exact ih c

/-- The running minimum of a non-empty list is defined. -/
theorem minOf_isSome (xs : List Int) (h : xs ≠ []) : ∃ mn, minOf xs = some mn := by
  cases xs with
  | nil => exact absurd rfl h
  | cons x rest =>
    unfold minOf
    rw [List.foldl_cons]
    exact Option.isSome_iff_exists.1 (foldl_some_isSome minStep (fun b a => rfl) rest x)

/-- The running maximum of a non-empty list is defined. -/
theorem maxOf_isSome (xs : List Int) (h : xs ≠ []) : ∃ mx, maxOf xs = some mx := by
  cases xs with
  | nil => exact absurd rfl h
  | cons x rest =>
    unfold maxOf
    rw [List.foldl_cons]
    exact Option.isSome_iff_exists.1 (foldl_some_isSome maxStep (fun b a => rfl) rest x)

/-- The week axis is the arithmetic progression of Mondays: entry `i` is the
start Monday plus `7*i` days. -/
theorem mondaysBetween_getElem (a b : Int) (i : Nat) (x : Int)
    (h : (mondaysBetween a b)[i]? = some x) : x = a + 7 * i := by
  unfold mondaysBetween at h
  split at h
  · rw [List.getElem?_map] at h
    obtain ⟨j, hj, hx⟩ := Option.map_eq_some'.1 h
    rcases List.getElem?_eq_some_iff.1 hj with ⟨hlt, hget⟩
    rw [List.getElem_range] at hget
    subst hget
    simp only [Int.ofNat_eq_natCast] at hx
    omega
  · exact absurd h (by simp)



/-- Claim C4: in the weekly throughput output, with fewer than 6 axis weeks
every row carries the same `(ucl, lcl)`, computed from the one mean over all
axis weeks; with 6 or more, row `i` carries the limits of block `min(i/6,
lastFullBlock)` — the limits computed at each block's 6th week from the
trailing 6-week mean, held across that block, reused by the trailing partial
block, and changing only at 6-week boundaries. -/
theorem throughput_limits_by_block (sq : ℚ → ℚ) (ends : List Int) :
    ((throughputKeys ends).length < 6 →
      ∀ (i : Nat) (ri : throughputRow), (throughputRows sq ends)[i]? = some ri →
        (ri.ucl, ri.lcl)
          = mkLimits sq ((weekCountsQ ends).sum / ((weekCountsQ ends).length : ℚ)))
    ∧ (6 ≤ (throughputKeys ends).length →
      ∀ (i : Nat) (ri : throughputRow), (throughputRows sq ends)[i]? = some ri →
        (ri.ucl, ri.lcl)
          = mkLimits sq (chunkMean (weekCountsQ ends)
              (min (i / 6) ((throughputKeys ends).length / 6 - 1)))) := by
  have hlen : (weekCountsQ ends).length = (throughputKeys ends).length := by
    simp only [weekCountsQ, throughputCounts, List.length_map]
  constructor
  · intro h6 i ri hri
    obtain ⟨hlt, hk, hl, ht⟩ := throughputRows_elim sq ends i ri hri
    have h6q : (weekCountsQ ends).length < 6 := by omega
    have hiq : i < (weekCountsQ ends).length := by omega
    have heq := limitsList_getElem_lt6 sq (weekCountsQ ends) i h6q hiq
    rw [hl] at heq
    exact Option.some.inj heq
  · intro h6 i ri hri
    obtain ⟨hlt, hk, hl, ht⟩ := throughputRows_elim sq ends i ri hri
    have h6q : 6 ≤ (weekCountsQ ends).length := by omega
    have hiq : i < (weekCountsQ ends).length := by omega
    have heq := limitsList_getElem_ge6 sq (weekCountsQ ends) i h6q hiq
    rw [hl, hlen] at heq
    exact Option.some.inj heq

/-- Claim C4 witness: the block-limits equation applied at the first row of a
concrete 7-week axis. -/
theorem throughput_limits_by_block_witness :
    6 ≤ (throughputKeys ends7).length
    ∧ ∃ ri, (throughputRows sqrtStub ends7)[0]? = some ri
        ∧ (ri.ucl, ri.lcl)
          = mkLimits sqrtStub (chunkMean (weekCountsQ ends7)
              (min (0 / 6) ((throughputKeys ends7).length / 6 - 1))) := by
  have h6 : 6 ≤ (throughputKeys ends7).length := by decide
  have hlt : 0 < (throughputRows sqrtStub ends7).length := by decide
  refine ⟨h6, ?_⟩
  have h0 := List.getElem?_eq_getElem hlt
  exact ⟨_, h0, (throughput_limits_by_block sqrtStub ends7).2 h6 0 _ h0⟩

/-- Claim C5 counterexample: a single completed issue spans W = 1 calendar
week, yet the output has 0 rows, not W — the most recent week is removed
before writing. -/
theorem throughput_row_count_cex :
    weeksSpannedBy [(0 : Int)] = 1 ∧ (throughputRows sqrtStub [(0 : Int)]).length = 0 := by
  decide

/-- Claim C5 (amended): with completions spanning W calendar weeks the output
has exactly W - 1 rows (the most recent week removed); the axis is contiguous
(row `i` is the first Monday plus `7*i` days, hence one per ISO week with no
gaps); and every row has `lcl ≥ 0`. -/
theorem throughput_axis_rows (sq : ℚ → ℚ) (ends : List Int) (h : ends ≠ []) :
    (throughputRows sq ends).length = weeksSpannedBy ends - 1
    ∧ (∀ (i : Nat) (ri : throughputRow), (throughputRows sq ends)[i]? = some ri →
        ri.monday = alignToMonday ((minOf ends).getD 0) + 7 * i)
    ∧ (∀ (i : Nat) (ri : throughputRow), (throughputRows sq ends)[i]? = some ri → 0 ≤ ri.lcl) := by
  obtain ⟨mn, hmn⟩ := minOf_isSome ends h
  obtain ⟨mx, hmx⟩ := maxOf_isSome ends h
  refine ⟨throughputRows_length sq ends, ?_, ?_⟩
  · intro i ri hri
    obtain ⟨hlt, hk, hl, ht⟩ := throughputRows_elim sq ends i ri hri
    unfold throughputKeys at hk
    rw [hmn, hmx] at hk
    have := mondaysBetween_getElem (alignToMonday mn) (alignToMonday mx) i ri.monday hk
    rw [this, hmn]
    rfl
  · intro i ri hri
    obtain ⟨hlt, hk, hl, ht⟩ := throughputRows_elim sq ends i ri hri
    rcases List.getElem?_eq_some_iff.1 hl with ⟨hilt, hget⟩
    have hmem : (ri.ucl, ri.lcl) ∈ limitsList sq (weekCountsQ ends) := by
      rw [← hget]
      exact List.getElem_mem hilt
    exact limitsList_lcl_nonneg sq (weekCountsQ ends) _ hmem

/-- Claim C5 witness: the amended row-count at a concrete two-week span. -/
theorem throughput_axis_rows_witness :
    (throughputRows sqrtStub [(0 : Int), 7]).length = weeksSpannedBy [(0 : Int), 7] - 1
    ∧ weeksSpannedBy [(0 : Int), 7] = 2
    ∧ (throughputRows sqrtStub [(0 : Int), 7]).length = 1 :=
  ⟨(throughput_axis_rows sqrtStub [(0 : Int), 7] (by decide)).1, by decide, by decide⟩

end CtoStats
